import Mathlib

/-!
Shallow embedding of the devops-demo ingestion pipeline (`UserbotService` in
`src/userbot/userbot.service.ts`, the `Vacancy` entity and the Redis-backed
idempotency marker), together with proofs of the spec claims C1–C10.

Conventions of the embedding:
* JavaScript strings are Lean `String`s; machine integers are `Nat`.
* JavaScript truthiness of an optional string (`undefined` and `""` are falsy)
  is `jsTruthy`.
* Stateful Redis (`SET key NX EX ttl`) is explicit state passing over
  `RedisStore`; the current wall-clock second is an explicit `now : Nat`.
* Fallible external calls (Redis, fetch, Telegram sends, DB writes) are
  modelled by explicit availability/outcome flags carried in environment
  records, mirroring the `try/catch` structure of the source.
-/

namespace DevopsDemo

/-! ## JavaScript string primitives -/

/-- JS `String.prototype.toLowerCase` on one character, covering the scripts
the program manipulates: ASCII and the Cyrillic block U+0400–U+04FF
(simple case mapping). Other characters are left unchanged. -/
def jsCharToLower (c : Char) : Char :=
  let v := c.toNat
  if 65 ≤ v ∧ v ≤ 90 then Char.ofNat (v + 32)
  else if 0x400 ≤ v ∧ v ≤ 0x40F then Char.ofNat (v + 0x50)
  else if 0x410 ≤ v ∧ v ≤ 0x42F then Char.ofNat (v + 0x20)
  else if 0x460 ≤ v ∧ v ≤ 0x481 ∧ v % 2 = 0 then Char.ofNat (v + 1)
  else if 0x48A ≤ v ∧ v ≤ 0x4BF ∧ v % 2 = 0 then Char.ofNat (v + 1)
  else if v = 0x4C0 then Char.ofNat 0x4CF
  else if 0x4C1 ≤ v ∧ v ≤ 0x4CE ∧ v % 2 = 1 then Char.ofNat (v + 1)
  else if 0x4D0 ≤ v ∧ v ≤ 0x4FF ∧ v % 2 = 0 then Char.ofNat (v + 1)
  else c

/-- JS `toLowerCase` on a whole string. -/
def jsToLower (s : String) : String :=
  String.mk (s.data.map jsCharToLower)

/-- The JS `\s` character class (whitespace as used by `trim` and regexes). -/
def jsIsSpace (c : Char) : Bool :=
  let v := c.toNat
  v = 32 || v = 9 || v = 10 || v = 13 || v = 11 || v = 12 ||
  v = 0xA0 || v = 0x1680 || (0x2000 ≤ v && v ≤ 0x200A) ||
  v = 0x2028 || v = 0x2029 || v = 0x202F || v = 0x205F || v = 0x3000 || v = 0xFEFF

/-- JS `String.prototype.trim`. -/
def jsTrim (s : String) : String :=
  String.mk (((s.data.dropWhile jsIsSpace).reverse.dropWhile jsIsSpace).reverse)

/-- JS `String.prototype.startsWith`. -/
def jsStartsWith (s pre : String) : Bool :=
  pre.data.isPrefixOf s.data

/-- JS truthiness of an optional string: `undefined`, `null` and `""` are falsy. -/
def jsTruthy : Option String → Bool
  | none => false
  | some s => !s.isEmpty

/-- JS `a || b` for two optional strings. -/
def jsOrS (a b : Option String) : Option String :=
  if jsTruthy a then a else b

/-- JS `a || d` where `d` is a (truthy) default string. -/
def jsOrD (a : Option String) (d : String) : String :=
  match a with
  | some s => if s.isEmpty then d else s
  | none => d

/-! ## Idempotency gate (`markProcessedOnce`, `userbot.service.ts` 1799–1810)

The shared Redis store is a map from key to absolute expiry second.
`SET key NX EX ttl` is atomic in Redis; the model makes the whole
check-and-set a single pure transition on `RedisStore`. -/

/-- The Redis key space relevant to the gate: each entry is a key together
with the absolute time (in seconds) at which it expires. -/
structure RedisStore where
  entries : List (String × Nat)
deriving DecidableEq

/-- A key counts as present iff some entry for it has not yet expired. -/
def RedisStore.liveAt (st : RedisStore) (now : Nat) (key : String) : Bool :=
  st.entries.any (fun e => e.1 = key && decide (now < e.2))

/-- Redis `SET key val NX EX ttlSec`: succeeds (returns `'OK'`) iff the key is
absent or expired, in which case the key is (re)created with a fresh expiry. -/
def redisSetNxEx (st : RedisStore) (now : Nat) (key : String) (ttl : Nat) :
    Bool × RedisStore :=
  if st.liveAt now key then (false, st)
  else (true, ⟨(key, now + ttl) :: st.entries.filter (fun e => e.1 ≠ key)⟩)

/-- `userbot:processed:${peerId}:${messageId}` (line 1801). -/
def processedKey (peerId : String) (messageId : Nat) : String :=
  "userbot:processed:" ++ peerId ++ ":" ++ toString messageId

/-- `const ttlSec = 7 * 24 * 60 * 60` (line 1802): the 7-day lease. -/
def ttlSec : Nat := 7 * 24 * 60 * 60

/-- `markProcessedOnce(peerId, messageId)` (lines 1799–1810).
`storeAvailable = false` models `client.set` throwing (Redis down); the
`catch` logs a warning and returns `true` (fail open), leaving the store
untouched. -/
def markProcessedOnce (storeAvailable : Bool) (st : RedisStore) (now : Nat)
    (peerId : String) (messageId : Nat) : Bool × RedisStore :=
  if storeAvailable then
    redisSetNxEx st now (processedKey peerId messageId) ttlSec
  else
    (true, st)

/-! ## Relevance filter (`hasKeywordMatch`, lines 1713–1733) -/

/-- Character class of the hashtag token regex `#[\w\dЀ-ӿ]+`:
`\w` is `[A-Za-z0-9_]`, plus the explicit Cyrillic range. -/
def isHashtagWordChar (c : Char) : Bool :=
  let v := c.toNat
  (65 ≤ v && v ≤ 90) || (97 ≤ v && v ≤ 122) || (48 ≤ v && v ≤ 57) ||
  c = '_' || (0x400 ≤ v && v ≤ 0x4FF)

/-- State machine equivalent of `text.match(/#[\w\dЀ-ӿ]+/g)`:
walks the text; on `#` followed by a maximal non-empty run of word
characters emits `#run`. `inTag` says a `#` has been seen and `acc` holds
the (reversed) word characters collected after it. -/
def scanHashtagsAux : List Char → Bool → List Char → List String
  | [], true, acc => if acc.isEmpty then [] else [String.mk ('#' :: acc.reverse)]
  | [], false, _ => []
  | c :: rest, true, acc =>
    if isHashtagWordChar c then
      scanHashtagsAux rest true (c :: acc)
    else if acc.isEmpty then
      scanHashtagsAux rest (c = '#') []
    else
      String.mk ('#' :: acc.reverse) :: scanHashtagsAux rest (c = '#') []
  | c :: rest, false, _ =>
    scanHashtagsAux rest (c = '#') []

/-- All hashtag-shaped tokens of a text, in order of occurrence. -/
def scanHashtags (text : String) : List String :=
  scanHashtagsAux text.data false []

/-- `hasKeywordMatch(text)` (lines 1713–1733): lowercase every hashtag token,
normalize each keyword to a lowercased `#`-prefixed form, succeed iff some
normalized keyword occurs among the lowercased hashtags (exact equality). -/
def hasKeywordMatch (keywords : List String) (text : String) : Bool :=
  let lowerHashtags := (scanHashtags text).map jsToLower
  keywords.any (fun keyword =>
    let hashtagKeyword :=
      if jsStartsWith keyword "#" then jsToLower keyword
      else "#" ++ jsToLower keyword
    lowerHashtags.contains hashtagKeyword)

/-- The guard at line 465: a post is filtered out iff a non-empty keyword set
is configured and no hashtag matches; it passes otherwise. -/
def relevancePasses (keywords : List String) (text : String) : Bool :=
  !(decide (keywords.length > 0) && !hasKeywordMatch keywords text)

/-! ## Per-post pipeline prefix and delivery traces (`processApiMessage`,
lines 356–478; live subscription line 330; backfill line 1363) -/

/-- Terminal classification of one `processApiMessage` invocation up to the
point where extraction/persistence/dispatch begin. `processedRun` means the
post passed every guard and the full pipeline run (extraction, persistence,
dispatch) was executed for it. -/
inductive PostOutcome where
  | noText
  | notAllowed
  | filteredOut
  | duplicate
  | processedRun
deriving DecidableEq

/-- The two producers that can deliver the same post. -/
inductive DeliveryPath where
  | live
  | backfill
deriving DecidableEq

/-- One delivery of a post to `processApiMessage`, together with the
environment of that invocation: whether `isChannelAllowed` accepted it and
whether the Redis call inside `markProcessedOnce` succeeds. -/
structure Delivery where
  path : DeliveryPath
  now : Nat
  peerId : String
  messageId : Nat
  text : String
  allowed : Bool
  storeAvailable : Bool
deriving DecidableEq

/-- The guard sequence of `processApiMessage` (lines 437–478), in source
order: empty-text check, channel allow-list, keyword filter (line 465),
idempotency gate (line 471); only a granted lease lets the run proceed to
extraction. Both the live event handler (line 330) and the backfill driver
(line 1363) enter through this same function. -/
def processPost (keywords : List String) (d : Delivery) (st : RedisStore) :
    PostOutcome × RedisStore :=
  if d.text.isEmpty then (.noText, st)
  else if !d.allowed then (.notAllowed, st)
  else if decide (keywords.length > 0) && !hasKeywordMatch keywords d.text then
    (.filteredOut, st)
  else
    let r := markProcessedOnce d.storeAvailable st d.now d.peerId d.messageId
    if r.1 then (.processedRun, r.2) else (.duplicate, r.2)

/-- Number of deliveries in a trace that reach the full pipeline run for the
post identified by `(peerId, messageId) = k`. -/
def countRuns (keywords : List String) (k : String × Nat) :
    List Delivery → RedisStore → Nat
  | [], _ => 0
  | d :: rest, st =>
    let r := processPost keywords d st
    (if (d.peerId, d.messageId) = k ∧ r.1 = .processedRun then 1 else 0) +
      countRuns keywords k rest r.2

/-! ## A small backtracking regex engine

`parseMessageFields` (lines 1191–1315) relies on JS regexes. The engine
below covers exactly the constructs those patterns use: character classes,
concatenation, ordered alternation, capturing groups, and greedy/lazy
counted repetition. `reMatches` enumerates the ways a regex can match a
prefix of the input in JS backtracking preference order, so its head is the
match a JS engine returns; `findMatch` adds the leftmost-position search of
`String.prototype.match` (without the `g` flag). -/

/-- Captured groups: group index paired with the captured characters.
A group absent from the list did not participate (JS `undefined`). -/
abbrev Caps := List (Nat × List Char)

/-- Regex abstract syntax. `rep lo hi greedy r` covers `?` `*` `+` `{n,m}`;
`hi = none` means unbounded. -/
inductive RE where
  | eps : RE
  | cls : (Char → Bool) → RE
  | seq : RE → RE → RE
  | alt : RE → RE → RE
  | grp : Nat → RE → RE
  | rep : Nat → Option Nat → Bool → RE → RE

/-- Repetition matcher. `mr` matches one iteration of the body; `fuel` bounds
the number of iterations (callers pass the input length plus one, and an
iteration that consumes nothing is cut, as a JS engine cuts empty
quantifier iterations). Results are in preference order: a greedy
repetition prefers more iterations, a lazy one fewer. -/
def repMatches (mr : List Char → List (List Char × Caps)) :
    Nat → Nat → Option Nat → Bool → List Char → List (List Char × Caps)
  | 0, lo, _, _, s => if lo = 0 then [(s, [])] else []
  | fuel + 1, lo, hi, greedy, s =>
    let base : List (List Char × Caps) := if lo = 0 then [(s, [])] else []
    let canIterate := match hi with | some 0 => false | _ => true
    let iters : List (List Char × Caps) :=
      if canIterate then
        (mr s).flatMap (fun p =>
          if p.1.length < s.length then
            (repMatches mr fuel (lo - 1) (hi.map (· - 1)) greedy p.1).map
              (fun q => (q.1, p.2 ++ q.2))
          else [])
      else []
    if greedy then iters ++ base else base ++ iters

/-- All ways `r` matches a prefix of `s`, each as (remaining suffix,
captures), in JS backtracking preference order. -/
def reMatches : RE → List Char → List (List Char × Caps)
  | .eps, s => [(s, [])]
  | .cls _, [] => []
  | .cls p, c :: rest => if p c then [(rest, [])] else []
  | .seq a b, s =>
    (reMatches a s).flatMap (fun p =>
      (reMatches b p.1).map (fun q => (q.1, p.2 ++ q.2)))
  | .alt a b, s => reMatches a s ++ reMatches b s
  | .grp i r, s =>
    (reMatches r s).map (fun p => (p.1, (i, s.take (s.length - p.1.length)) :: p.2))
  | .rep lo hi greedy r, s => repMatches (fun t => reMatches r t) (s.length + 1) lo hi greedy s

/-- `text.match(rx)` without `g`: search start positions left to right and
return the preferred match at the first position that matches, as the
matched text `m[0]` together with the captures. -/
def findMatch (r : RE) (s : List Char) : Option (String × Caps) :=
  match (reMatches r s).head? with
  | some p => some (String.mk (s.take (s.length - p.1.length)), p.2)
  | none =>
    match s with
    | [] => none
    | _ :: rest => findMatch r rest

/-- `m[i]` of a match: the capture of group `i`, `none` when the group did
not participate. -/
def capStr (caps : Caps) (i : Nat) : Option String :=
  (caps.lookup i).map String.mk

/-- Regex combinator helpers mirroring the concrete syntax. -/
def reChar (c : Char) : RE := .cls (fun x => x = c)

/-- A single literal character under the `i` flag. -/
def reCharCi (c : Char) : RE := .cls (fun x => jsCharToLower x = jsCharToLower c)

/-- A literal word under the `i` flag. -/
def reLitCi (w : String) : RE := w.data.foldr (fun c acc => .seq (reCharCi c) acc) .eps

/-- Ordered alternation of a list of branches. -/
def reAlts : List RE → RE
  | [] => .cls (fun _ => false)
  | [r] => r
  | r :: rs => .alt r (reAlts rs)

/-- Concatenation of a list of regexes. -/
def reSeq (rs : List RE) : RE := rs.foldr .seq .eps

/-- `r?` (greedy). -/
def reOpt (r : RE) : RE := .rep 0 (some 1) true r

/-- `r*` (greedy). -/
def reStar (r : RE) : RE := .rep 0 none true r

/-- `r*?` (lazy). -/
def reStarLazy (r : RE) : RE := .rep 0 none false r

/-- `r+` (greedy). -/
def rePlus (r : RE) : RE := .rep 1 none true r

/-- JS `.` without the `s` flag: any character except line terminators. -/
def reDot : RE := .cls (fun c => !(c = '\n' || c = '\r' || c.toNat = 0x2028 || c.toNat = 0x2029))

/-- JS `\d`. -/
def reDigit : RE := .cls (fun c => c.isDigit)

/-- JS `\s`. -/
def reWs : RE := .cls jsIsSpace

/-! ## Heuristic salary extraction (`parseMessageFields`, lines 1203–1231) -/

/-- `\d{1,6}(?:\s?\d{3})*`: an amount with optional thousands groups. -/
def numRE : RE :=
  .seq (.rep 1 (some 6) true reDigit)
    (reStar (.seq (reOpt reWs) (.rep 3 (some 3) true reDigit)))

/-- `(?:зп|зарплат|вилка|оплата|salary|оклад)` (with the `i` flag). -/
def salaryWordRE : RE :=
  reAlts [reLitCi "зп", reLitCi "зарплат", reLitCi "вилка", reLitCi "оплата",
          reLitCi "salary", reLitCi "оклад"]

/-- `(?:₽|руб|р\.|usd|\$|eur|€)` (with the `i` flag). -/
def curRE : RE :=
  reAlts [reLitCi "₽", reLitCi "руб", reLitCi "р.", reLitCi "usd",
          reLitCi "$", reLitCi "eur", reLitCi "€"]

/-- `(?:\s?-\s?\d{1,6}(?:\s?\d{3})*)?`: the optional upper bound of a range. -/
def rangeTailRE : RE :=
  reOpt (reSeq [reOpt reWs, reChar '-', reOpt reWs, numRE])

/-- Salary pattern 1 (line 1206):
range with a salary-word prefix, `от X до Y <currency>`. -/
def salaryPattern1 : RE :=
  reSeq [salaryWordRE, reStarLazy reDot,
         reOpt (reSeq [reLitCi "от", rePlus reWs]),
         .grp 1 numRE, reStar reWs,
         reAlts [reLitCi "до", reLitCi "–", reLitCi "-"], reStar reWs,
         .grp 2 numRE, reStar reWs, curRE]

/-- Salary pattern 2 (line 1208): single amount with a salary-word prefix. -/
def salaryPattern2 : RE :=
  reSeq [salaryWordRE, reStarLazy reDot,
         reOpt (reSeq [reLitCi "от", rePlus reWs]),
         .grp 1 numRE, reStar reWs, curRE]

/-- Salary pattern 3 (line 1210): `$X` or `$X-Y`. -/
def salaryPattern3 : RE :=
  .grp 1 (reSeq [reChar '$', reOpt reWs, numRE, rangeTailRE])

/-- Salary pattern 4 (line 1212): `X$` or `X - Y$`. -/
def salaryPattern4 : RE :=
  .grp 1 (reSeq [numRE, rangeTailRE, reOpt reWs, reChar '$'])

/-- Salary pattern 5 (line 1214): amount or range followed by usd/eur/€/₾. -/
def salaryPattern5 : RE :=
  .grp 1 (reSeq [numRE, rangeTailRE, reOpt reWs,
                 reAlts [reLitCi "usd", reLitCi "eur", reLitCi "€", reLitCi "₾"]])

/-- Salary pattern 6 (line 1216): `X / месяц`. -/
def salaryPattern6 : RE :=
  .grp 1 (reSeq [numRE, reOpt reWs, reOpt (reChar '$'), reOpt reWs,
                 reChar '/', reOpt reWs, reLitCi "месяц"])

/-- The fixed battery, in source order (lines 1204–1217). -/
def salaryPatterns : List RE :=
  [salaryPattern1, salaryPattern2, salaryPattern3,
   salaryPattern4, salaryPattern5, salaryPattern6]

/-- The currency character class `[₽рубр\.$€eur]` with the `i` flag
(line 1224). -/
def currencyChar (c : Char) : Bool :=
  let l := jsCharToLower c
  l = '₽' || l = 'р' || l = 'у' || l = 'б' || l = '.' ||
  l = '$' || l = '€' || l = 'e' || l = 'u' || l = 'r'

/-- `replace(/\s/g, '')`. -/
def removeWs (s : String) : String :=
  String.mk (s.data.filter (fun c => !jsIsSpace c))

/-- Lines 1221–1228: assemble the price from the first matching pattern.
When both bounds captured, build `"<low> - <high> <currency-symbol>"`
(currency = first character of `m[0]` in the currency class); otherwise the
whole match, trimmed. -/
def assemblePrice (m : String × Caps) : String :=
  let m1 := capStr m.2 1
  let m2 := capStr m.2 2
  if jsTruthy m1 ∧ jsTruthy m2 then
    let currency :=
      match m.1.data.find? currencyChar with
      | some c => String.mk [c]
      | none => ""
    jsTrim (removeWs (jsTrim (m1.getD "")) ++ " - " ++
            removeWs (jsTrim (m2.getD "")) ++ " " ++ currency)
  else
    jsTrim m.1

/-- The salary part of `parseMessageFields` (lines 1218–1231): try the
patterns in order against the whole text; the first to match wins. -/
def extractPrice (text : String) : Option String :=
  (salaryPatterns.findSome? (fun rx => findMatch rx text.data)).map assemblePrice

/-! ## Field merge policy (`processApiMessage`, lines 508–584 and 630–651)

The merge stage combines the AI extractor's result with the heuristic
extractors. The subroutine results it consumes are passed in as values:
`regexFields` is `parseMessageFields(text)`, `regexStack` is
`extractStackFromText(text)` and `derivedContact` is
`deriveRecruiterContact(text, publisherUsername)`. -/

/-- The object `extractFieldsWithLlm` resolves to (lines 988–1000): every
field optional; `none` is JS `undefined`. -/
structure LlmFields where
  position : Option String := none
  company : Option String := none
  salary : Option String := none
  location : Option String := none
  workFormat : Option String := none
  employment : Option String := none
  contact : Option String := none
  hashtags : Option (List String) := none
  stack : Option (List String) := none
  tasks : Option (List String) := none
  summary : Option String := none
deriving DecidableEq

/-- The record `parseMessageFields` returns (lines 1191–1199). -/
structure RegexFields where
  price : Option String := none
  hashtags : List String := []
  location : Option String := none
  workFormat : Option String := none
  employment : Option String := none
  company : Option String := none
  contact : Option String := none
deriving DecidableEq

/-- The extraction data the orchestrator persists into the vacancy record
(fields of the `create` call, lines 630–651). -/
structure Extraction where
  position : String
  price : Option String
  company : Option String
  location : Option String
  workFormat : Option String
  employment : Option String
  contact : Option String
  hashtags : List String
  stack : List String
  tasks : List String
  summary : Option String
deriving DecidableEq

/-- LLM hashtag normalization (line 526): prefix `#` where missing. -/
def normalizeLlmHashtags : Option (List String) → List String
  | some hs => hs.map (fun h => if jsStartsWith h "#" then h else "#" ++ h)
  | none => []

/-- Lines 508–584 plus the `contact: contact || fields.contact` merge at
record creation (line 641). `llmResult = none` covers all three fallback
branches (LLM disabled/unconfigured, LLM returned null, LLM threw), whose
bodies are identical. -/
def mergeExtraction (llmResult : Option LlmFields) (regexFields : RegexFields)
    (regexStack : List String) (derivedContact : Option String) : Extraction :=
  match llmResult with
  | some llm =>
    let position := jsOrD llm.position "DevOps"
    let llmHashtags := normalizeLlmHashtags llm.hashtags
    let stack0 := llm.stack.getD []
    let tasks := llm.tasks.getD []
    let contact0 := jsOrS llm.contact derivedContact
    let summary := llm.summary
    -- lines 544–555: fill missing fields from the regex fallback
    let price := if !jsTruthy llm.salary && jsTruthy regexFields.price then
        regexFields.price else llm.salary
    let company := if !jsTruthy llm.company && jsTruthy regexFields.company then
        regexFields.company else llm.company
    let location := if !jsTruthy llm.location && jsTruthy regexFields.location then
        regexFields.location else llm.location
    let workFormat := if !jsTruthy llm.workFormat && jsTruthy regexFields.workFormat then
        regexFields.workFormat else llm.workFormat
    let employment := if !jsTruthy llm.employment && jsTruthy regexFields.employment then
        regexFields.employment else llm.employment
    let contact1 := if !jsTruthy contact0 && jsTruthy regexFields.contact then
        regexFields.contact else contact0
    let hashtags := if llmHashtags.length = 0 ∧ regexFields.hashtags.length > 0 then
        regexFields.hashtags else llmHashtags
    let stack := if stack0.length = 0 then regexStack else stack0
    { position, price, company, location, workFormat, employment,
      contact := jsOrS contact1 llm.contact, hashtags, stack, tasks, summary }
  | none =>
    { position := "DevOps",
      price := regexFields.price,
      company := regexFields.company,
      location := regexFields.location,
      workFormat := regexFields.workFormat,
      employment := regexFields.employment,
      contact := jsOrS derivedContact regexFields.contact,
      hashtags := regexFields.hashtags,
      stack := regexStack,
      tasks := [],
      summary := none }

/-! ## AI field extractor (`extractFieldsWithLlm`, lines 988–1189)

Remote interaction is modelled by an environment describing the outcome of
the single `fetch`: `.error` covers a transport error or the 60-second
abort; `.ok` carries the HTTP success flag, whether the body parsed as JSON
at all (`res.json()`), and the text the response-shape probing (lines
1111–1138) recovers. `JSON.parse` on the cleaned text is an oracle
`parse`, so that a parse failure is an explicit environment case. -/

/-- Outcome of the HTTP response, after `res.json()` and shape probing. -/
structure FetchResponse where
  ok : Bool
  jsonBodyOk : Bool
  rawText : Option String
deriving DecidableEq

/-- The untyped object `JSON.parse` may produce, restricted to the fields
lines 1163–1175 read; `none` in an array field means the field is missing
or fails `Array.isArray`. -/
structure ParsedFields where
  position : Option String := none
  company : Option String := none
  salary : Option String := none
  location : Option String := none
  workFormat : Option String := none
  employment : Option String := none
  contact : Option String := none
  hashtags : Option (List String) := none
  stack : Option (List String) := none
  tasks : Option (List String) := none
  summary : Option String := none

/-- Environment of one `extractFieldsWithLlm` call. -/
structure ExtractEnv where
  fetchAvailable : Bool
  transport : Except Unit FetchResponse
  parse : String → Option ParsedFields

/-- The LLM configuration the extractor reads (lines 1002–1007 and
1046–1051), already resolved through the `extract* ?? llm*` fallbacks. -/
structure ExtractCfg where
  llmEnabled : Bool
  endpoint : Option String
  model : Option String
  isOpenAi : Bool
  apiKey : Option String
deriving DecidableEq

/-- `replace(/^```json\s*/i, '')` and `replace(/^```\s*/i, '')`
(line 1152): drop a leading fence marker and the whitespace after it. -/
def dropLeadingFence (marker : String) (s : String) : String :=
  if jsStartsWith (jsToLower s) (jsToLower marker) then
    String.mk ((s.data.drop marker.length).dropWhile jsIsSpace)
  else s

/-- `replace(/```\s*$/i, '')` (line 1152): drop a trailing fence marker and
the whitespace after it. -/
def dropTrailingFence (s : String) : String :=
  match (s.data.reverse.dropWhile jsIsSpace) with
  | '`' :: '`' :: '`' :: rest => String.mk rest.reverse
  | _ => s

/-- `replace(/^["']|["']$/g, '')` (line 1154): remove one leading and one
trailing quote character. -/
def dropOuterQuotes (s : String) : String :=
  let isQuote : Char → Bool := fun c => c = '"' || c = '\''
  let afterHead :=
    match s.data with
    | c :: rest => if isQuote c then rest else s.data
    | [] => []
  let afterLast :=
    match afterHead.reverse with
    | c :: rest => if isQuote c then rest.reverse else afterHead
    | [] => []
  String.mk afterLast

/-- Lines 1150–1155: trim, strip code-fence wrappers, strip surrounding
quotes, trim again. -/
def cleanLlmResponse (raw : String) : String :=
  jsTrim (dropOuterQuotes (dropTrailingFence
    (dropLeadingFence "```" (dropLeadingFence "```json" (jsTrim raw)))))

/-- Lines 1163–1175: normalize the parsed object field by field;
`x || undefined` collapses empty strings to absence. -/
def normalizeParsed (p : ParsedFields) : LlmFields where
  position := jsOrS p.position none
  company := jsOrS p.company none
  salary := jsOrS p.salary none
  location := jsOrS p.location none
  workFormat := jsOrS p.workFormat none
  employment := jsOrS p.employment none
  contact := jsOrS p.contact none
  hashtags := p.hashtags
  stack := p.stack
  tasks := p.tasks
  summary := jsOrS p.summary none

/-- `extractFieldsWithLlm(text)` (lines 988–1189). Every failure path —
configuration gaps, a missing `fetch`, transport error or timeout, a
non-OK status, an unparsable body, an empty recovered payload, or a
`JSON.parse` failure on the cleaned text — lands on `none`; the result type
is `Option LlmFields`, never an exception (the whole body sits in a
`try/catch` returning `null`). -/
def extractFieldsWithLlm (cfg : ExtractCfg) (env : ExtractEnv) : Option LlmFields :=
  if !cfg.llmEnabled || !jsTruthy cfg.endpoint || !jsTruthy cfg.model then none
  else if !env.fetchAvailable then none
  else if cfg.isOpenAi && !jsTruthy cfg.apiKey then none
  else
    match env.transport with
    | .error _ => none
    | .ok res =>
      if !res.ok then none
      else if !res.jsonBodyOk then none
      else
        match res.rawText with
        | none => none
        | some raw =>
          match env.parse (cleanLlmResponse raw) with
          | none => none
          | some parsed => some (normalizeParsed parsed)

/-! ## Outreach dispatcher (`sendDmReplies`, lines 1819–1916)

Per-target transport outcomes are an environment `String → TargetEnv`
(identity resolution, on-the-fly generation result, send success);
`renderedReply` is the value `renderReply(digest)` produces from the
configured template. The persisted store is a list of `VacancyRow`s;
`vacancyRepository.update` on a `(channelId, messageId)` selector rewrites
matching rows and is a silent no-op when none match. -/

/-- The persisted columns of the `vacancies` row that `sendDmReplies`
touches (`vacancy.entity.ts`). -/
structure VacancyRow where
  channelId : String
  messageId : Nat
  status : String
  dmSent : Bool
deriving DecidableEq

/-- `vacancyRepository.update({channelId, messageId}, {dmSent: true,
status: 'sent'})` (lines 1905–1908). -/
def updateVacancySent (db : List VacancyRow) (peerId : String) (messageId : Nat) :
    List VacancyRow :=
  db.map (fun r =>
    if r.channelId = peerId ∧ r.messageId = messageId then
      { r with dmSent := true, status := "sent" }
    else r)

/-- Observable actions of the dispatch loop, in order of occurrence. -/
inductive DmEvent where
  | delayEv : DmEvent
  | dryRunLog : String → DmEvent
  | sentTo : String → DmEvent
  | failLog : String → DmEvent
  | skipLog : String → DmEvent
deriving DecidableEq

/-- Static configuration the dispatcher reads. `llmConfigured` is the
conjunction `llmEnabled && llmEndpoint && llmModel` (line 1857). -/
structure DmConfig where
  clientConnected : Bool
  dryRun : Bool
  dmMaxPerPost : Nat
  llmConfigured : Bool
  replyTemplate : String
deriving DecidableEq

/-- Per-target external outcomes: whether `getEntity` resolves, what
`callLlmGenerate` returns (`none` = failed or undefined), whether
`sendMessage` would succeed. -/
structure TargetEnv where
  resolveOk : Bool
  generated : Option String
  sendOk : Bool

/-- The `replyData` argument (line 1824); only its `contact` influences
control flow (`contactForPrompt`, lines 1860, 1871). -/
structure ReplyData where
  contact : Option String
deriving DecidableEq

/-- `new URL(l)` hostname/pathname recovery for the `http(s)` links the
link extractor produces: hostname is the authority without userinfo and
port, lowercased; pathname defaults to `/`. A malformed URL (`new URL`
throwing) is `none`. -/
def urlHostPath (l : String) : Option (String × String) :=
  let low := jsToLower l
  let rest? : Option (List Char) :=
    if jsStartsWith low "https://" then some (l.data.drop 8)
    else if jsStartsWith low "http://" then some (l.data.drop 7)
    else none
  match rest? with
  | none => none
  | some rest =>
    let authority := rest.takeWhile (fun c => !(c = '/' || c = '?' || c = '#'))
    if authority.isEmpty then none
    else
      let afterUserinfo := (authority.reverse.takeWhile (fun c => c ≠ '@')).reverse
      let host := afterUserinfo.takeWhile (fun c => c ≠ ':')
      let tail := rest.drop authority.length
      let path := tail.takeWhile (fun c => !(c = '?' || c = '#'))
      some (jsToLower (String.mk host), if path.isEmpty then "/" else String.mk path)

/-- Lines 1829–1840: convert a `t.me`/`telegram.me` link into a lowercased
`@username` candidate; anything else contributes nothing. -/
def tmeLinkToUsername (l : String) : Option String :=
  match urlHostPath l with
  | none => none
  | some (host, pathname) =>
    if host = "t.me" || host = "telegram.me" then
      let username :=
        match pathname.data with
        | '/' :: rest => String.mk rest
        | cs => String.mk cs
      let isWordChar : Char → Bool := fun c =>
        (65 ≤ c.toNat && c.toNat ≤ 90) || (97 ≤ c.toNat && c.toNat ≤ 122) ||
        (48 ≤ c.toNat && c.toNat ≤ 57) || c = '_'
      if !username.isEmpty && username.data.all isWordChar then
        some (jsToLower ("@" ++ username))
      else none
    else none

/-- `Array.from(new Set(xs))`: deduplicate keeping first occurrences. -/
def dedupFirst (l : List String) : List String :=
  l.foldl (fun acc x => if acc.contains x then acc else acc ++ [x]) []

/-- The body of the `for (const username of uniqueTargets)` loop
(lines 1846–1900) for one target: the inter-message delay always comes
first; a resolution failure is caught and logged; the payload is the
pre-generated reply, else an on-the-fly generation accepted only when it
starts with the contact, else the rendered template when one is
configured, else the target is skipped; dry-run logs instead of sending;
a send failure is caught and logged. Returns the events and whether a real
send succeeded. -/
def dmTargetStep (cfg : DmConfig) (env : String → TargetEnv)
    (llmReplyText : Option String) (replyData : Option ReplyData)
    (renderedReply : String) (username : String) : List DmEvent × Bool :=
  let e := env username
  if !e.resolveOk then ([.delayEv, .failLog username], false)
  else
    let payload0 : Option String :=
      if jsTruthy llmReplyText then llmReplyText
      else if cfg.llmConfigured then
        match replyData with
        | some rd =>
          let contactForPrompt := jsOrD rd.contact username
          match e.generated with
          | some g =>
            if !g.isEmpty && jsStartsWith (jsTrim g) contactForPrompt then some g
            else none
          | none => none
        | none => none
      else none
    let payload :=
      if !jsTruthy payload0 && !cfg.replyTemplate.isEmpty then some renderedReply
      else payload0
    if !jsTruthy payload then ([.delayEv, .skipLog username], false)
    else if cfg.dryRun then ([.delayEv, .dryRunLog username], false)
    else if e.sendOk then ([.delayEv, .sentTo username], true)
    else ([.delayEv, .failLog username], false)

/-- The dispatch loop over the deduplicated, capped target list;
`dmSent` is the OR of per-target send successes. -/
def dmLoop (cfg : DmConfig) (env : String → TargetEnv)
    (llmReplyText : Option String) (replyData : Option ReplyData)
    (renderedReply : String) : List String → List DmEvent × Bool
  | [] => ([], false)
  | u :: rest =>
    let h := dmTargetStep cfg env llmReplyText replyData renderedReply u
    let t := dmLoop cfg env llmReplyText replyData renderedReply rest
    (h.1 ++ t.1, h.2 || t.2)

/-- Result of one `sendDmReplies` call. -/
structure DmResult where
  events : List DmEvent
  dmSent : Bool
  db : List VacancyRow
deriving DecidableEq

/-- `sendDmReplies` (lines 1819–1916): build targets from mentions and
`t.me` links, deduplicate, cap at `dmMaxPerPost`, run the loop, and — only
if some real send succeeded — update the vacancy row to
`dmSent=true, status='sent'` (`updateOk = false` models that update
throwing, which is caught and logged). -/
def sendDmReplies (cfg : DmConfig) (env : String → TargetEnv)
    (mentions links : List String) (renderedReply : String)
    (peerId : String) (messageId : Nat) (llmReplyText : Option String)
    (replyData : Option ReplyData) (db : List VacancyRow) (updateOk : Bool) :
    DmResult :=
  if !cfg.clientConnected then ⟨[], false, db⟩
  else
    let fromLinks := links.filterMap tmeLinkToUsername
    let uniqueTargets := (dedupFirst (mentions ++ fromLinks)).take cfg.dmMaxPerPost
    if uniqueTargets.isEmpty then ⟨[], false, db⟩
    else
      let r := dmLoop cfg env llmReplyText replyData renderedReply uniqueTargets
      let db' :=
        if r.2 then
          if updateOk then updateVacancySent db peerId messageId else db
        else db
      ⟨r.1, r.2, db'⟩

/-! ## Persistence and dispatch tail of the orchestrator
(`processApiMessage`, lines 627–664) -/

/-- Result of the persist-then-dispatch tail. -/
structure TailResult where
  db : List VacancyRow
  dispatchAttempted : Bool
deriving DecidableEq

/-- Lines 627–664: save the vacancy (a failure is caught and logged — the
pipeline continues), then, when auto-reply is enabled, run `sendDmReplies`
unconditionally of whether the save succeeded. -/
def pipelineTail (autoReplyEnabled saveOk : Bool) (cfg : DmConfig)
    (env : String → TargetEnv) (mentions links : List String)
    (renderedReply : String) (peerId : String) (messageId : Nat)
    (llmReplyText : Option String) (replyData : Option ReplyData)
    (db : List VacancyRow) (row : VacancyRow) (updateOk : Bool) : TailResult :=
  let db1 := if saveOk then db ++ [row] else db
  if autoReplyEnabled then
    let r := sendDmReplies cfg env mentions links renderedReply peerId messageId
      llmReplyText replyData db1 updateOk
    ⟨r.db, true⟩
  else
    ⟨db1, false⟩

/-! ## Helper lemmas -/

@[simp]
theorem jsTruthy_none : jsTruthy none = false := rfl

/-- A store with no entry for `key` is not live for it at any time. -/
theorem liveAt_false_of_fresh (st : RedisStore) (now : Nat) (key : String)
    (h : ∀ e ∈ st.entries, e.1 ≠ key) : st.liveAt now key = false := by
  simp only [RedisStore.liveAt, List.any_eq_false]
  intro e he
  simp [h e he]

/-- Entries surviving the same-key filter are for other keys. -/
theorem mem_filter_ne_key {st : RedisStore} {key : String} {e : String × Nat}
    (h : e ∈ st.entries.filter (fun e => e.1 ≠ key)) : e.1 ≠ key := by
  have := (List.mem_filter.1 h).2
  simpa using this

/-- Liveness of a store whose head entry is the only one for `key`. -/
theorem liveAt_cons_self (entries : List (String × Nat)) (key : String)
    (exp now : Nat) (hrest : ∀ e ∈ entries, e.1 ≠ key) :
    (RedisStore.mk ((key, exp) :: entries)).liveAt now key = decide (now < exp) := by
  simp only [RedisStore.liveAt, List.any_cons]
  have h0 : (entries.any fun e => decide (e.1 = key) && decide (now < e.2)) = false := by
    simp only [List.any_eq_false]
    intro e he
    simp [hrest e he]
  rw [h0]
  simp

/-- The admission result is the negation of key liveness. -/
theorem markProcessedOnce_true_iff (st : RedisStore) (now : Nat)
    (peerId : String) (messageId : Nat) :
    (markProcessedOnce true st now peerId messageId).1 =
      !st.liveAt now (processedKey peerId messageId) := by
  simp only [markProcessedOnce, redisSetNxEx, if_true]
  split <;> simp_all

/-- The store after a granted admission. -/
theorem markProcessedOnce_granted_store (st : RedisStore) (now : Nat)
    (peerId : String) (messageId : Nat)
    (h : st.liveAt now (processedKey peerId messageId) = false) :
    (markProcessedOnce true st now peerId messageId).2 =
      ⟨(processedKey peerId messageId, now + ttlSec) ::
        st.entries.filter (fun e => e.1 ≠ processedKey peerId messageId)⟩ := by
  simp [markProcessedOnce, redisSetNxEx, h]

/-! ## Claim theorems -/

/-- C2: the Idempotency Gate's admission (`markProcessedOnce`) is a single
atomic set-if-not-exists transition with a 7-day expiry: on a store with no
marker for the key it returns `true` and records the marker expiring at
`t + ttlSec` (with `ttlSec` = 7 days); a second attempt within the lease
window returns `false`; an attempt at or after expiry returns `true`
again. -/
theorem tryAdmit_lease_semantics (st : RedisStore) (t tLater : Nat)
    (peerId : String) (messageId : Nat)
    (hfresh : ∀ e ∈ st.entries, e.1 ≠ processedKey peerId messageId) :
    (markProcessedOnce true st t peerId messageId).1 = true ∧
    (processedKey peerId messageId, t + ttlSec) ∈
      (markProcessedOnce true st t peerId messageId).2.entries ∧
    (tLater < t + ttlSec →
      (markProcessedOnce true (markProcessedOnce true st t peerId messageId).2
        tLater peerId messageId).1 = false) ∧
    (t + ttlSec ≤ tLater →
      (markProcessedOnce true (markProcessedOnce true st t peerId messageId).2
        tLater peerId messageId).1 = true) ∧
    ttlSec = 7 * 24 * 60 * 60 := by
  have hl := liveAt_false_of_fresh st t (processedKey peerId messageId) hfresh
  have hstore := markProcessedOnce_granted_store st t peerId messageId hl
  have hlive : ∀ now : Nat,
      (markProcessedOnce true st t peerId messageId).2.liveAt
        now (processedKey peerId messageId) = decide (now < t + ttlSec) := by
    intro now
    rw [hstore]
    exact liveAt_cons_self _ _ _ _ (fun e he => mem_filter_ne_key he)
  refine ⟨?_, ?_, ?_, ?_, rfl⟩
  · rw [markProcessedOnce_true_iff, hl]
    rfl
  · rw [hstore]
    exact List.mem_cons_self _ _
  · intro hlt
    rw [markProcessedOnce_true_iff, hlive tLater]
    simp [hlt]
  · intro hge
    rw [markProcessedOnce_true_iff, hlive tLater]
    simp [Nat.not_lt.2 hge]

/-- Witness for C2 at a concrete fresh store and concrete times. -/
theorem tryAdmit_lease_semantics_witness :
    (markProcessedOnce true ⟨[]⟩ 0 "100" 1).1 = true ∧
    (markProcessedOnce true (markProcessedOnce true ⟨[]⟩ 0 "100" 1).2
      604799 "100" 1).1 = false ∧
    (markProcessedOnce true (markProcessedOnce true ⟨[]⟩ 0 "100" 1).2
      604800 "100" 1).1 = true := by
  have h := tryAdmit_lease_semantics ⟨[]⟩ 0 604799 "100" 1 (by simp)
  have h2 := tryAdmit_lease_semantics ⟨[]⟩ 0 604800 "100" 1 (by simp)
  exact ⟨h.1, h.2.2.1 (by decide), h2.2.2.2.1 (by decide)⟩

/-- C3: when the idempotency store operation raises (store unavailable),
the gate fails open: `markProcessedOnce` returns `true` — not `false`, and
not an exception — and leaves the store untouched, so the post proceeds
rather than being silently dropped. -/
theorem tryAdmit_fails_open (st : RedisStore) (now : Nat)
    (peerId : String) (messageId : Nat) :
    markProcessedOnce false st now peerId messageId = (true, st) := rfl

/-- C7: the relevance filter passes a post iff the configured keyword set
is empty or some configured keyword, normalized to a lowercased
`#`-prefixed form, occurs verbatim among the lowercased hashtag-shaped
tokens of the text (exact hashtag equality, no partial matching); in
particular keywords `{"devops"}` pass `#devops #senior` and reject
`#java`, and an empty keyword set passes every post. -/
theorem relevance_filter_spec :
    (∀ (keywords : List String) (text : String),
      relevancePasses keywords text = true ↔
        keywords = [] ∨ ∃ kw ∈ keywords,
          (if jsStartsWith kw "#" then jsToLower kw else "#" ++ jsToLower kw)
            ∈ (scanHashtags text).map jsToLower) ∧
    relevancePasses ["devops"] "Вакансия DevOps #devops #senior" = true ∧
    relevancePasses ["devops"] "Вакансия Java #java" = false ∧
    (∀ text, relevancePasses [] text = true) := by
  refine ⟨?_, by decide, by decide, fun text => by simp [relevancePasses]⟩
  intro keywords text
  cases keywords with
  | nil => simp [relevancePasses]
  | cons k ks =>
    have hpass : relevancePasses (k :: ks) text = hasKeywordMatch (k :: ks) text := by
      simp [relevancePasses]
    have hmatch : hasKeywordMatch (k :: ks) text = true ↔
        ∃ kw ∈ k :: ks,
          (if jsStartsWith kw "#" then jsToLower kw else "#" ++ jsToLower kw)
            ∈ (scanHashtags text).map jsToLower := by
      simp [hasKeywordMatch, List.any_eq_true]
    rw [hpass, hmatch]
    simp

/-- C4 counterexample: a concrete post (non-empty text, allowed channel,
healthy store, non-matching keyword set) is rejected by the Relevance
Filter while the idempotency store stays empty — no lease was consumed, so
the filter rejection did not happen "after admission by the gate". -/
theorem gate_order_counterexample :
    (processPost ["devops"]
      { path := .live, now := 0, peerId := "100", messageId := 1,
        text := "Вакансия без тегов", allowed := true, storeAvailable := true }
      ⟨[]⟩).1 = .filteredOut ∧
    (processPost ["devops"]
      { path := .live, now := 0, peerId := "100", messageId := 1,
        text := "Вакансия без тегов", allowed := true, storeAvailable := true }
      ⟨[]⟩).2.entries = [] := by
  decide

/-- C4 (amended): in `processApiMessage` the Relevance Filter runs before
the Idempotency Gate, not after it: a post the filter rejects terminates
with the store unchanged — no lease is consumed and the admission decision
never happens for it — and such a rejection occurs only when a non-empty
keyword set is configured. -/
theorem filter_rejects_before_gate (keywords : List String) (d : Delivery)
    (st : RedisStore)
    (h : (processPost keywords d st).1 = .filteredOut) :
    (processPost keywords d st).2 = st ∧
    relevancePasses keywords d.text = false ∧ keywords ≠ [] := by
  by_cases h1 : d.text.isEmpty
  · simp [processPost, h1] at h
  by_cases h2 : d.allowed
  case neg => simp [processPost, h1, h2] at h
  by_cases h3 : (decide (keywords.length > 0) && !hasKeywordMatch keywords d.text) = true
  · refine ⟨by simp [processPost, h1, h2, h3], by simp [relevancePasses, h3], ?_⟩
    intro hk
    subst hk
    simp at h3
  · exfalso
    cases hr : (markProcessedOnce d.storeAvailable st d.now d.peerId d.messageId).1 <;>
      simp [processPost, h1, h2, h3, hr] at h

/-- Witness for C4's amended theorem at the counterexample input. -/
theorem filter_rejects_before_gate_witness :
    (processPost ["devops"]
      { path := .live, now := 0, peerId := "100", messageId := 1,
        text := "Вакансия без тегов", allowed := true, storeAvailable := true }
      ⟨[]⟩).2 = ⟨[]⟩ ∧
    relevancePasses ["devops"] "Вакансия без тегов" = false := by
  have h := filter_rejects_before_gate ["devops"]
    { path := .live, now := 0, peerId := "100", messageId := 1,
      text := "Вакансия без тегов", allowed := true, storeAvailable := true }
    ⟨[]⟩ (by decide)
  exact ⟨h.1, h.2.1⟩

/-- C5: field merge policy. With an AI result, each overlapping field
(salary, company, location, work format, employment, contact, hashtags)
keeps the AI value when present and is filled from the heuristic result
otherwise; the spec's example — heuristic `{company: "Acme"}` merged with
AI `{company: null, position: "SRE"}` — yields
`{company: "Acme", position: "SRE"}`. Without an AI result the heuristic
result is used wholesale, with `position` defaulted to the fixed
placeholder `"DevOps"` and `tasks`/`summary` left empty. -/
theorem field_merge_policy :
    (∀ (llm : LlmFields) (rf : RegexFields) (rstack : List String)
       (derived : Option String),
      (jsTruthy llm.salary = true →
        (mergeExtraction (some llm) rf rstack derived).price = llm.salary) ∧
      (jsTruthy llm.salary = false → jsTruthy rf.price = true →
        (mergeExtraction (some llm) rf rstack derived).price = rf.price) ∧
      (jsTruthy llm.company = true →
        (mergeExtraction (some llm) rf rstack derived).company = llm.company) ∧
      (jsTruthy llm.company = false → jsTruthy rf.company = true →
        (mergeExtraction (some llm) rf rstack derived).company = rf.company) ∧
      (jsTruthy llm.location = true →
        (mergeExtraction (some llm) rf rstack derived).location = llm.location) ∧
      (jsTruthy llm.location = false → jsTruthy rf.location = true →
        (mergeExtraction (some llm) rf rstack derived).location = rf.location) ∧
      (jsTruthy llm.workFormat = true →
        (mergeExtraction (some llm) rf rstack derived).workFormat = llm.workFormat) ∧
      (jsTruthy llm.workFormat = false → jsTruthy rf.workFormat = true →
        (mergeExtraction (some llm) rf rstack derived).workFormat = rf.workFormat) ∧
      (jsTruthy llm.employment = true →
        (mergeExtraction (some llm) rf rstack derived).employment = llm.employment) ∧
      (jsTruthy llm.employment = false → jsTruthy rf.employment = true →
        (mergeExtraction (some llm) rf rstack derived).employment = rf.employment) ∧
      (jsTruthy llm.contact = true →
        (mergeExtraction (some llm) rf rstack derived).contact = llm.contact) ∧
      (jsTruthy llm.contact = false → derived = none → jsTruthy rf.contact = true →
        (mergeExtraction (some llm) rf rstack derived).contact = rf.contact) ∧
      (normalizeLlmHashtags llm.hashtags ≠ [] →
        (mergeExtraction (some llm) rf rstack derived).hashtags =
          normalizeLlmHashtags llm.hashtags) ∧
      (normalizeLlmHashtags llm.hashtags = [] → rf.hashtags ≠ [] →
        (mergeExtraction (some llm) rf rstack derived).hashtags = rf.hashtags)) ∧
    ((mergeExtraction (some { position := some "SRE" }) { company := some "Acme" }
        [] none).company = some "Acme" ∧
     (mergeExtraction (some { position := some "SRE" }) { company := some "Acme" }
        [] none).position = "SRE") ∧
    (∀ (rf : RegexFields) (rstack : List String) (derived : Option String),
      mergeExtraction none rf rstack derived =
        { position := "DevOps", price := rf.price, company := rf.company,
          location := rf.location, workFormat := rf.workFormat,
          employment := rf.employment, contact := jsOrS derived rf.contact,
          hashtags := rf.hashtags, stack := rstack, tasks := [],
          summary := none }) := by
  refine ⟨?_, by decide, fun rf rstack derived => rfl⟩
  intro llm rf rstack derived
  refine ⟨fun h => by simp [mergeExtraction, h],
          fun h1 h2 => by simp [mergeExtraction, h1, h2],
          fun h => by simp [mergeExtraction, h],
          fun h1 h2 => by simp [mergeExtraction, h1, h2],
          fun h => by simp [mergeExtraction, h],
          fun h1 h2 => by simp [mergeExtraction, h1, h2],
          fun h => by simp [mergeExtraction, h],
          fun h1 h2 => by simp [mergeExtraction, h1, h2],
          fun h => by simp [mergeExtraction, h],
          fun h1 h2 => by simp [mergeExtraction, h1, h2],
          fun h => by simp [mergeExtraction, jsOrS, h],
          fun h1 hd h2 => by simp [mergeExtraction, jsOrS, h1, hd, h2],
          fun h => by simp [mergeExtraction, h, List.length_eq_zero],
          fun h1 h2 => by
            simp [mergeExtraction, h1, List.length_pos, h2]⟩

/-- Witness for C5 at concrete field values. -/
theorem field_merge_policy_witness :
    (mergeExtraction (some { salary := some "100 $" })
      { price := some "200 $" } [] none).price = some "100 $" ∧
    (mergeExtraction (some {}) { price := some "200 $" } [] none).price =
      some "200 $" := by
  have h1 := (field_merge_policy.1 { salary := some "100 $" }
    { price := some "200 $" } [] none).1 (by decide)
  have h2 := ((field_merge_policy.1 {} { price := some "200 $" } [] none).2.1
    (by decide) (by decide))
  exact ⟨h1, h2⟩

/-- C8: heuristic salary extraction tries the fixed patterns in order
against the whole text and the first to match wins (the first pattern's
match, when it exists, decides the result; if no pattern matches the
salary is absent); a matching range is assembled as
`"<low> - <high> <currency-symbol>"`; the spec's example
`"Вилка: от 200000 до 300000 руб"` yields a non-empty salary containing
both bounds, and a text with no salary-like substring yields no salary. -/
theorem salary_extraction_spec :
    (∀ (text : String) (m : String × Caps),
      findMatch salaryPattern1 text.data = some m →
      extractPrice text = some (assemblePrice m)) ∧
    (∀ (text : String) (m : String × Caps),
      findMatch salaryPattern1 text.data = none →
      findMatch salaryPattern2 text.data = some m →
      extractPrice text = some (assemblePrice m)) ∧
    (∀ text : String, (∀ rx ∈ salaryPatterns, findMatch rx text.data = none) →
      extractPrice text = none) ∧
    extractPrice "Вилка: от 200000 до 300000 руб" = some "200000 - 300000 р" ∧
    ("200000".data <:+: ("200000 - 300000 р" : String).data ∧
     "300000".data <:+: ("200000 - 300000 р" : String).data) ∧
    extractPrice "Привет мир" = none := by
  refine ⟨?_, ?_, ?_, by decide, by decide, by decide⟩
  · intro text m hm
    simp [extractPrice, salaryPatterns, hm]
  · intro text m h1 hm
    simp [extractPrice, salaryPatterns, h1, hm]
  · intro text hall
    have h1 := hall salaryPattern1 (by simp [salaryPatterns])
    have h2 := hall salaryPattern2 (by simp [salaryPatterns])
    have h3 := hall salaryPattern3 (by simp [salaryPatterns])
    have h4 := hall salaryPattern4 (by simp [salaryPatterns])
    have h5 := hall salaryPattern5 (by simp [salaryPatterns])
    have h6 := hall salaryPattern6 (by simp [salaryPatterns])
    simp [extractPrice, salaryPatterns, h1, h2, h3, h4, h5, h6]

/-- Witness for C8 at the spec's concrete range input. -/
theorem salary_extraction_spec_witness :
    extractPrice "Вилка: от 200000 до 300000 руб" =
      some (assemblePrice ("Вилка: от 200000 до 300000 руб",
        [(1, "200000".data), (2, "300000".data)])) := by
  exact salary_extraction_spec.1 "Вилка: от 200000 до 300000 руб"
    ("Вилка: от 200000 до 300000 руб", [(1, "200000".data), (2, "300000".data)])
    (by decide)

/-- C9: the AI field extractor is total toward its caller: its result type
is `Option LlmFields` (never an exception), and a transport error or
timeout, a non-OK HTTP status, an unparsable response body, an empty
recovered payload, or a `JSON.parse` failure on the cleaned text (after
stripping code fences and surrounding quotes) each yield `none` — never a
partial object. -/
theorem ai_extractor_never_raises (cfg : ExtractCfg) (env : ExtractEnv) :
    (env.transport = .error () → extractFieldsWithLlm cfg env = none) ∧
    (∀ res : FetchResponse, env.transport = .ok res → res.ok = false →
      extractFieldsWithLlm cfg env = none) ∧
    (∀ res : FetchResponse, env.transport = .ok res → res.jsonBodyOk = false →
      extractFieldsWithLlm cfg env = none) ∧
    (∀ res : FetchResponse, env.transport = .ok res → res.rawText = none →
      extractFieldsWithLlm cfg env = none) ∧
    (∀ (res : FetchResponse) (raw : String), env.transport = .ok res →
      res.rawText = some raw → env.parse (cleanLlmResponse raw) = none →
      extractFieldsWithLlm cfg env = none) := by
  refine ⟨?_, ?_, ?_, ?_, ?_⟩ <;>
    · intros
      simp only [extractFieldsWithLlm]
      split_ifs <;> simp_all

/-- Witness for C9 at concrete environments. -/
theorem ai_extractor_never_raises_witness :
    extractFieldsWithLlm ⟨true, some "http://llm", some "m", false, none⟩
      ⟨true, .error (), fun _ => none⟩ = none ∧
    extractFieldsWithLlm ⟨true, some "http://llm", some "m", false, none⟩
      ⟨true, .ok ⟨true, true, some "not json"⟩, fun _ => none⟩ = none := by
  refine ⟨?_, ?_⟩
  · exact (ai_extractor_never_raises _ _).1 rfl
  · exact (ai_extractor_never_raises _ _).2.2.2.2 ⟨true, true, some "not json"⟩
      "not json" rfl rfl rfl

/-- One dispatch-loop iteration ends in exactly one of the four terminal
shapes; a real send happens only in the non-dry-run, send-success shape. -/
theorem dmTargetStep_cases (cfg : DmConfig) (env : String → TargetEnv)
    (lrt : Option String) (rd : Option ReplyData) (rr u : String) :
    dmTargetStep cfg env lrt rd rr u = ([.delayEv, .failLog u], false) ∨
    dmTargetStep cfg env lrt rd rr u = ([.delayEv, .skipLog u], false) ∨
    (cfg.dryRun = true ∧
      dmTargetStep cfg env lrt rd rr u = ([.delayEv, .dryRunLog u], false)) ∨
    (cfg.dryRun = false ∧
      dmTargetStep cfg env lrt rd rr u = ([.delayEv, .sentTo u], true)) := by
  simp only [dmTargetStep]
  split_ifs <;> simp_all

/-- Over the whole loop, the `dmSent` flag is set iff some `sentTo` event
occurred, and dry-run produces neither. -/
theorem dmLoop_sent_iff (cfg : DmConfig) (env : String → TargetEnv)
    (lrt : Option String) (rd : Option ReplyData) (rr : String)
    (targets : List String) :
    ((dmLoop cfg env lrt rd rr targets).2 = true ↔
      ∃ u, DmEvent.sentTo u ∈ (dmLoop cfg env lrt rd rr targets).1) ∧
    (cfg.dryRun = true → (dmLoop cfg env lrt rd rr targets).2 = false ∧
      ∀ u, DmEvent.sentTo u ∉ (dmLoop cfg env lrt rd rr targets).1) := by
  induction targets with
  | nil => simp [dmLoop]
  | cons u rest ih =>
    rcases dmTargetStep_cases cfg env lrt rd rr u with h | h | ⟨hd, h⟩ | ⟨hd, h⟩ <;>
      constructor
    · simp only [dmLoop, h]
      simpa using ih.1
    · intro hdry
      simp only [dmLoop, h]
      simpa using (ih.2 hdry)
    · simp only [dmLoop, h]
      simpa using ih.1
    · intro hdry
      simp only [dmLoop, h]
      simpa using (ih.2 hdry)
    · simp only [dmLoop, h]
      simpa using ih.1
    · intro hdry
      simp only [dmLoop, h]
      simpa using (ih.2 hdry)
    · simp only [dmLoop, h]
      simp
    · intro hdry
      rw [hdry] at hd
      simp at hd

/-- C6: after the dispatch loop, `dmSent = true` exactly when at least one
real send succeeded, and exactly then (given an available record store) the
persisted row is updated to `dmSent=true, status='sent'`; with no
successful send the store is untouched. In dry-run mode no real send ever
occurs, so the record keeps `status='processed', dmSent=false`; in the
concrete scenario with 3 distinct mention targets and cap 2, exactly two
delayed would-send events are logged and nothing else happens. -/
theorem dispatcher_status_transition :
    (∀ (cfg : DmConfig) (env : String → TargetEnv) (mentions links : List String)
       (rr peerId : String) (mid : Nat) (lrt : Option String)
       (rd : Option ReplyData) (db : List VacancyRow) (uok : Bool),
      ((sendDmReplies cfg env mentions links rr peerId mid lrt rd db uok).dmSent = true ↔
        ∃ u, DmEvent.sentTo u ∈
          (sendDmReplies cfg env mentions links rr peerId mid lrt rd db uok).events) ∧
      (uok = true →
        (sendDmReplies cfg env mentions links rr peerId mid lrt rd db uok).dmSent = true →
        (sendDmReplies cfg env mentions links rr peerId mid lrt rd db uok).db =
          updateVacancySent db peerId mid) ∧
      ((sendDmReplies cfg env mentions links rr peerId mid lrt rd db uok).dmSent = false →
        (sendDmReplies cfg env mentions links rr peerId mid lrt rd db uok).db = db) ∧
      (cfg.dryRun = true →
        (sendDmReplies cfg env mentions links rr peerId mid lrt rd db uok).dmSent = false ∧
        (sendDmReplies cfg env mentions links rr peerId mid lrt rd db uok).db = db ∧
        ∀ u, DmEvent.sentTo u ∉
          (sendDmReplies cfg env mentions links rr peerId mid lrt rd db uok).events)) ∧
    ((sendDmReplies ⟨true, true, 2, false, ""⟩ (fun _ => ⟨true, none, true⟩)
        ["@a", "@b", "@c"] [] "" "100" 1 (some "Reply") none
        [⟨"100", 1, "processed", false⟩] true).events =
      [.delayEv, .dryRunLog "@a", .delayEv, .dryRunLog "@b"] ∧
     (sendDmReplies ⟨true, true, 2, false, ""⟩ (fun _ => ⟨true, none, true⟩)
        ["@a", "@b", "@c"] [] "" "100" 1 (some "Reply") none
        [⟨"100", 1, "processed", false⟩] true).dmSent = false ∧
     (sendDmReplies ⟨true, true, 2, false, ""⟩ (fun _ => ⟨true, none, true⟩)
        ["@a", "@b", "@c"] [] "" "100" 1 (some "Reply") none
        [⟨"100", 1, "processed", false⟩] true).db =
      [⟨"100", 1, "processed", false⟩]) := by
  refine ⟨?_, by decide⟩
  intro cfg env mentions links rr peerId mid lrt rd db uok
  cases hclient : cfg.clientConnected with
  | false => simp [sendDmReplies, hclient]
  | true =>
    cases hempty : ((dedupFirst (mentions ++ links.filterMap tmeLinkToUsername)).take
        cfg.dmMaxPerPost).isEmpty with
    | true => simp [sendDmReplies, hclient, hempty]
    | false =>
      have hl := dmLoop_sent_iff cfg env lrt rd rr
        ((dedupFirst (mentions ++ links.filterMap tmeLinkToUsername)).take cfg.dmMaxPerPost)
      cases hr : (dmLoop cfg env lrt rd rr
          ((dedupFirst (mentions ++ links.filterMap tmeLinkToUsername)).take
            cfg.dmMaxPerPost)).2 with
      | false =>
        refine ⟨by simp [sendDmReplies, hclient, hempty, hr]; simpa [hr] using hl.1,
                by simp [sendDmReplies, hclient, hempty, hr],
                by simp [sendDmReplies, hclient, hempty, hr], ?_⟩
        intro hdry
        refine ⟨by simp [sendDmReplies, hclient, hempty, hr],
                by simp [sendDmReplies, hclient, hempty, hr], ?_⟩
        intro u
        have := (hl.2 hdry).2 u
        simpa [sendDmReplies, hclient, hempty, hr] using this
      | true =>
        refine ⟨by simp [sendDmReplies, hclient, hempty, hr]; simpa [hr] using hl.1,
                ?_,
                by simp [sendDmReplies, hclient, hempty, hr], ?_⟩
        · intro huok _
          simp [sendDmReplies, hclient, hempty, hr, huok]
        · intro hdry
          exact absurd ((hl.2 hdry).1.symm.trans hr) (by simp)

/-- Witness for C6's universally quantified part in the dry-run scenario. -/
theorem dispatcher_status_transition_witness :
    (sendDmReplies ⟨true, true, 2, false, ""⟩ (fun _ => ⟨true, none, true⟩)
      ["@a", "@b", "@c"] [] "" "100" 1 (some "Reply") none
      [⟨"100", 1, "processed", false⟩] true).dmSent = false ∧
    (sendDmReplies ⟨true, true, 2, false, ""⟩ (fun _ => ⟨true, none, true⟩)
      ["@a", "@b", "@c"] [] "" "100" 1 (some "Reply") none
      [⟨"100", 1, "processed", false⟩] true).db =
      [⟨"100", 1, "processed", false⟩] := by
  have h := (dispatcher_status_transition.1 ⟨true, true, 2, false, ""⟩
    (fun _ => ⟨true, none, true⟩) ["@a", "@b", "@c"] [] "" "100" 1
    (some "Reply") none [⟨"100", 1, "processed", false⟩] true).2.2.2 rfl
  exact ⟨h.1, h.2.1⟩

/-- A status update that targets a `(channelId, messageId)` pair absent
from the store is a no-op. -/
theorem updateVacancySent_no_match (db : List VacancyRow) (peerId : String)
    (mid : Nat) (h : ∀ r ∈ db, ¬(r.channelId = peerId ∧ r.messageId = mid)) :
    updateVacancySent db peerId mid = db := by
  induction db with
  | nil => rfl
  | cons r rest ih =>
    simp only [updateVacancySent, List.map_cons] at ih ⊢
    rw [if_neg (h r (List.mem_cons_self _ _)),
      ih (fun r' hr' => h r' (List.mem_cons_of_mem _ hr'))]

/-- When no row matches, `sendDmReplies` leaves the store unchanged
whatever happened in the loop. -/
theorem sendDmReplies_db_no_match (cfg : DmConfig) (env : String → TargetEnv)
    (mentions links : List String) (rr peerId : String) (mid : Nat)
    (lrt : Option String) (rd : Option ReplyData) (db : List VacancyRow)
    (uok : Bool)
    (h : ∀ r ∈ db, ¬(r.channelId = peerId ∧ r.messageId = mid)) :
    (sendDmReplies cfg env mentions links rr peerId mid lrt rd db uok).db = db := by
  cases hclient : cfg.clientConnected with
  | false => simp [sendDmReplies, hclient]
  | true =>
    cases hempty : ((dedupFirst (mentions ++ links.filterMap tmeLinkToUsername)).take
        cfg.dmMaxPerPost).isEmpty with
    | true => simp [sendDmReplies, hclient, hempty]
    | false =>
      cases hr : (dmLoop cfg env lrt rd rr
          ((dedupFirst (mentions ++ links.filterMap tmeLinkToUsername)).take
            cfg.dmMaxPerPost)).2 <;>
        cases uok <;>
          simp [sendDmReplies, hclient, hempty, hr,
            updateVacancySent_no_match db peerId mid h]

/-- C10: a failed persistence write does not skip dispatch — with auto-reply
enabled, `sendDmReplies` still runs for the post (`dispatchAttempted`) —
and the later `status='sent'` update then targets a `(channelId, messageId)`
row that may not exist, in which case it silently changes nothing. -/
theorem persistence_failure_still_dispatches (cfg : DmConfig)
    (env : String → TargetEnv) (mentions links : List String)
    (rr peerId : String) (mid : Nat) (lrt : Option String)
    (rd : Option ReplyData) (db : List VacancyRow) (row : VacancyRow)
    (uok : Bool)
    (hnorow : ∀ r ∈ db, ¬(r.channelId = peerId ∧ r.messageId = mid)) :
    (pipelineTail true false cfg env mentions links rr peerId mid lrt rd db row
      uok).dispatchAttempted = true ∧
    (pipelineTail true false cfg env mentions links rr peerId mid lrt rd db row
      uok).db = db := by
  refine ⟨rfl, ?_⟩
  simpa [pipelineTail] using
    sendDmReplies_db_no_match cfg env mentions links rr peerId mid lrt rd db uok hnorow

/-- Witness for C10 on an empty store (the failed write left no row). -/
theorem persistence_failure_still_dispatches_witness :
    (pipelineTail true false ⟨true, false, 3, false, "t"⟩ (fun _ => ⟨true, none, true⟩)
      ["@a"] [] "rendered" "100" 1 none none [] ⟨"100", 1, "processed", false⟩
      true).dispatchAttempted = true ∧
    (pipelineTail true false ⟨true, false, 3, false, "t"⟩ (fun _ => ⟨true, none, true⟩)
      ["@a"] [] "rendered" "100" 1 none none [] ⟨"100", 1, "processed", false⟩
      true).db = [] := by
  exact persistence_failure_still_dispatches ⟨true, false, 3, false, "t"⟩
    (fun _ => ⟨true, none, true⟩) ["@a"] [] "rendered" "100" 1 none none []
    ⟨"100", 1, "processed", false⟩ true (by simp)

/-- A store holding a not-yet-expired entry for `key` is live for it. -/
theorem liveAt_of_high {st : RedisStore} {key : String} {b now : Nat}
    (h : ∃ e ∈ st.entries, e.1 = key ∧ b ≤ e.2) (hnow : now < b) :
    st.liveAt now key = true := by
  rcases h with ⟨e, he, hk, hb⟩
  simp only [RedisStore.liveAt, List.any_eq_true]
  exact ⟨e, he, by simp [hk, lt_of_lt_of_le hnow hb]⟩

/-- One gate call preserves the presence of a high-expiry entry for a key:
either the store is untouched, or an admission happened after that entry
already expired, leaving an even later expiry in its place. -/
theorem markProcessedOnce_preserves_high (sa : Bool) (st : RedisStore)
    (now : Nat) (p : String) (m : Nat) {key : String} {b : Nat}
    (h : ∃ e ∈ st.entries, e.1 = key ∧ b ≤ e.2) :
    ∃ e ∈ (markProcessedOnce sa st now p m).2.entries, e.1 = key ∧ b ≤ e.2 := by
  simp only [markProcessedOnce, redisSetNxEx]
  split_ifs with hsa hlive
  · exact h
  · rcases h with ⟨e, he, hk, hb⟩
    by_cases hkk : e.1 = processedKey p m
    · have hdead : e.2 ≤ now := by
        by_contra hlt
        have : st.liveAt now (processedKey p m) = true :=
          liveAt_of_high ⟨e, he, hkk, le_refl _⟩ (Nat.lt_of_not_le hlt)
        simp [this] at hlive
      refine ⟨(processedKey p m, now + ttlSec), List.mem_cons_self _ _, ?_, ?_⟩
      · rw [← hkk, hk]
      · exact le_trans hb (le_trans hdead (Nat.le_add_right _ _))
    · exact ⟨e, List.mem_cons_of_mem _ (List.mem_filter.2 ⟨he, by simp [hkk]⟩),
        hk, hb⟩
  · exact h

/-- The whole per-post pipeline prefix preserves a high-expiry entry. -/
theorem processPost_preserves_high (keywords : List String) (d : Delivery)
    (st : RedisStore) {key : String} {b : Nat}
    (h : ∃ e ∈ st.entries, e.1 = key ∧ b ≤ e.2) :
    ∃ e ∈ (processPost keywords d st).2.entries, e.1 = key ∧ b ≤ e.2 := by
  by_cases h1 : d.text.isEmpty
  · simpa [processPost, h1] using h
  by_cases h2 : d.allowed
  case neg => simpa [processPost, h1, h2] using h
  by_cases h3 : (decide (keywords.length > 0) && !hasKeywordMatch keywords d.text) = true
  · simpa [processPost, h1, h2, h3] using h
  · have hpres := markProcessedOnce_preserves_high d.storeAvailable st d.now
      d.peerId d.messageId h
    cases hr : (markProcessedOnce d.storeAvailable st d.now d.peerId d.messageId).1 <;>
      simpa [processPost, h1, h2, h3, hr] using hpres

/-- While a high-expiry lease for the post's key is in the store, a
delivery of that post (healthy store, within the window) never reaches the
full pipeline run. -/
theorem processPost_no_run_of_high (keywords : List String) (d : Delivery)
    (st : RedisStore) {b : Nat}
    (hkey : ∃ e ∈ st.entries, e.1 = processedKey d.peerId d.messageId ∧ b ≤ e.2)
    (hsa : d.storeAvailable = true) (hnow : d.now < b) :
    (processPost keywords d st).1 ≠ .processedRun := by
  by_cases h1 : d.text.isEmpty
  · simp [processPost, h1]
  by_cases h2 : d.allowed
  case neg => simp [processPost, h1, h2]
  by_cases h3 : (decide (keywords.length > 0) && !hasKeywordMatch keywords d.text) = true
  · simp [processPost, h1, h2, h3]
  · have hlive := liveAt_of_high hkey hnow
    have hfalse : (markProcessedOnce d.storeAvailable st d.now d.peerId d.messageId).1 =
        false := by
      rw [hsa, markProcessedOnce_true_iff, hlive]
      rfl
    simp [processPost, h1, h2, h3, hfalse]

/-- Once the store carries a lease for the key expiring at or after
`t0 + ttlSec`, no delivery of that key in a trace confined to the window
`[t0, t0 + ttlSec)` (with healthy store) reaches the run stage. -/
theorem countRuns_zero_of_high (keywords : List String) (p : String) (m : Nat)
    (t0 : Nat) :
    ∀ (trace : List Delivery) (st : RedisStore),
    (∀ d ∈ trace, (d.peerId, d.messageId) = (p, m) →
      d.storeAvailable = true ∧ t0 ≤ d.now ∧ d.now < t0 + ttlSec) →
    (∃ e ∈ st.entries, e.1 = processedKey p m ∧ t0 + ttlSec ≤ e.2) →
    countRuns keywords (p, m) trace st = 0
  | [], _, _, _ => rfl
  | d :: rest, st, h, hhigh => by
    simp only [countRuns]
    have hrest := countRuns_zero_of_high keywords p m t0 rest
      (processPost keywords d st).2
      (fun d' hd' => h d' (List.mem_cons_of_mem _ hd'))
      (processPost_preserves_high keywords d st hhigh)
    by_cases hk : (d.peerId, d.messageId) = (p, m)
    · obtain ⟨hsa, _, hlt⟩ := h d (List.mem_cons_self _ _) hk
      have hp : d.peerId = p := congrArg Prod.fst hk
      have hm : d.messageId = m := congrArg Prod.snd hk
      have hkey : ∃ e ∈ st.entries,
          e.1 = processedKey d.peerId d.messageId ∧ t0 + ttlSec ≤ e.2 := by
        rw [hp, hm]; exact hhigh
      have hno := processPost_no_run_of_high keywords d st hkey hsa hlt
      simp [hk, hno, hrest]
    · simp [hk, hrest]

/-- In every run, admission by the gate happened in that same invocation:
`processedRun` is reachable only through a granted `markProcessedOnce`. -/
theorem processPost_run_gate (keywords : List String) (d : Delivery)
    (st : RedisStore)
    (h : (processPost keywords d st).1 = .processedRun) :
    (markProcessedOnce d.storeAvailable st d.now d.peerId d.messageId).1 = true := by
  by_cases h1 : d.text.isEmpty
  · simp [processPost, h1] at h
  by_cases h2 : d.allowed
  case neg => simp [processPost, h1, h2] at h
  by_cases h3 : (decide (keywords.length > 0) && !hasKeywordMatch keywords d.text) = true
  · simp [processPost, h1, h2, h3] at h
  · cases hr : (markProcessedOnce d.storeAvailable st d.now d.peerId d.messageId).1 with
    | true => rfl
    | false => simp [processPost, h1, h2, h3, hr] at h

/-- A run on a healthy store leaves the key's fresh lease in the store. -/
theorem processPost_run_mem (keywords : List String) (d : Delivery)
    (st : RedisStore)
    (h : (processPost keywords d st).1 = .processedRun)
    (hsa : d.storeAvailable = true) :
    (processedKey d.peerId d.messageId, d.now + ttlSec) ∈
      (processPost keywords d st).2.entries := by
  have hr1 := processPost_run_gate keywords d st h
  have hlive : st.liveAt d.now (processedKey d.peerId d.messageId) = false := by
    rw [hsa, markProcessedOnce_true_iff] at hr1
    simpa using hr1
  have hstore : (markProcessedOnce d.storeAvailable st d.now d.peerId d.messageId).2 =
      ⟨(processedKey d.peerId d.messageId, d.now + ttlSec) ::
        st.entries.filter (fun e => e.1 ≠ processedKey d.peerId d.messageId)⟩ := by
    rw [hsa]
    exact markProcessedOnce_granted_store st d.now d.peerId d.messageId hlive
  by_cases h1 : d.text.isEmpty
  · simp [processPost, h1] at h
  by_cases h2 : d.allowed
  case neg => simp [processPost, h1, h2] at h
  by_cases h3 : (decide (keywords.length > 0) && !hasKeywordMatch keywords d.text) = true
  · simp [processPost, h1, h2, h3] at h
  · have : (processPost keywords d st).2 =
        (markProcessedOnce d.storeAvailable st d.now d.peerId d.messageId).2 := by
      simp [processPost, h1, h2, h3, hr1]
    rw [this, hstore]
    exact List.mem_cons_self _ _

/-- C1: at most one delivery per `(channelId, postId)` reaches the full
pipeline run (extraction, persistence, dispatch), over any trace of
deliveries — live, backfill, or both interleaved — as long as each
delivery of that post finds the idempotency store healthy and the trace
stays within one 7-day lease window; and every delivery that reaches the
run stage, on either path, was first admitted by the Idempotency Gate in
that same invocation, before any extraction work. -/
theorem at_most_one_run_per_post (keywords : List String) (p : String)
    (m : Nat) (t0 : Nat) :
    (∀ (trace : List Delivery) (st : RedisStore),
      (∀ d ∈ trace, (d.peerId, d.messageId) = (p, m) →
        d.storeAvailable = true ∧ t0 ≤ d.now ∧ d.now < t0 + ttlSec) →
      countRuns keywords (p, m) trace st ≤ 1) ∧
    (∀ (d : Delivery) (st : RedisStore),
      (processPost keywords d st).1 = .processedRun →
      (markProcessedOnce d.storeAvailable st d.now d.peerId d.messageId).1 = true) := by
  refine ⟨?_, fun d st h => processPost_run_gate keywords d st h⟩
  intro trace
  induction trace with
  | nil => intro st _; simp [countRuns]
  | cons d rest ih =>
    intro st h
    simp only [countRuns]
    by_cases hrun : (d.peerId, d.messageId) = (p, m) ∧
        (processPost keywords d st).1 = .processedRun
    · obtain ⟨hk, hout⟩ := hrun
      obtain ⟨hsa, ht0, hlt⟩ := h d (List.mem_cons_self _ _) hk
      have hp : d.peerId = p := congrArg Prod.fst hk
      have hm : d.messageId = m := congrArg Prod.snd hk
      have hmem := processPost_run_mem keywords d st hout hsa
      have hhigh : ∃ e ∈ (processPost keywords d st).2.entries,
          e.1 = processedKey p m ∧ t0 + ttlSec ≤ e.2 := by
        refine ⟨(processedKey d.peerId d.messageId, d.now + ttlSec), hmem, ?_, ?_⟩
        · rw [hp, hm]
        · exact Nat.add_le_add_right ht0 _
      have hzero := countRuns_zero_of_high keywords p m t0 rest
        (processPost keywords d st).2
        (fun d' hd' => h d' (List.mem_cons_of_mem _ hd')) hhigh
      simp [hk, hout, hzero]
    · have hle := ih (processPost keywords d st).2
        (fun d' hd' => h d' (List.mem_cons_of_mem _ hd'))
      rw [if_neg hrun, Nat.zero_add]
      exact hle

/-- Witness for C1: a live and a backfill delivery of the same post within
one lease window yield at most one full run. -/
theorem at_most_one_run_per_post_witness :
    countRuns [] ("100", 1)
      [{ path := .live, now := 5, peerId := "100", messageId := 1,
         text := "Вакансия", allowed := true, storeAvailable := true },
       { path := .backfill, now := 10, peerId := "100", messageId := 1,
         text := "Вакансия", allowed := true, storeAvailable := true }]
      ⟨[]⟩ ≤ 1 := by
  exact (at_most_one_run_per_post [] "100" 1 0).1 _ ⟨[]⟩ (by
    intro d hd hk
    simp only [List.mem_cons, List.mem_singleton] at hd
    rcases hd with h | h | h
    · subst h; exact ⟨rfl, by decide, by decide⟩
    · subst h; exact ⟨rfl, by decide, by decide⟩
    · cases h)

end DevopsDemo
